import Mathlib

/-!
# Verification of the Wordflow word engine

A shallow embedding of `WordEngine` (src/unnamed/part_000, a TypeScript class)
into Lean 4, together with theorems settling the specification claims.

Modelling conventions:
* JavaScript strings of the word lists are ASCII, so `String` / `List Char`
  model them directly; `w.length` models JS `w.length` (all words are ASCII,
  so UTF-16 length and codepoint count agree).
* `Math.random()`-derived values are passed in explicitly: the root index as a
  `Nat`, the per-candidate scores (JS `Math.pow(Math.random(), 1/word.length)`)
  as an arbitrary `Nat → ℚ` function (only their relative order matters to any
  claim), and the Fisher–Yates draws as a `Nat → Nat` function.
* A JS `Map` is modelled as an association list in insertion order, matching
  `Map` iteration order; `Set` deduplication keeps first occurrences, matching
  JS `Set` semantics.
* JS array sorts are modelled with `List.insertionSort`; every claim concerns
  only permutation-level facts about them.
* `init` is modelled as a pure function from the fetch outcome
  (`some lines` for a successful fetch split on newlines, `none` for failure)
  to the resulting engine state, reflecting the once-per-process call.
-/

open scoped List

namespace WordEngine

/-- `PRIORITY_WORDS` from the source: curated literary supplement. -/
def PRIORITY_WORDS : List String :=
  ["nigh", "fain", "yore", "lore", "bard", "sage", "vale", "moor", "vial",
   "helm", "rune", "mead", "thou", "thee", "quoth", "wrought", "blithe",
   "stark", "grim", "vane", "reed"]

/-- `BLACKLIST` from the source: excluded proper names, jargon, fragments. -/
def BLACKLIST : List String :=
  ["fran", "brad", "greg", "ebay", "sony", "dell", "nike", "levi", "visa", "ford",
   "fiat", "asda", "audi", "hugo", "marc", "jean", "paul", "ivan", "karl", "erik",
   "http", "html", "www", "com", "org", "blog", "site", "user", "java", "linux",
   "unix", "xml", "json", "wifi", "apps", "tech", "data", "file", "link", "code",
   "ipad", "ipod", "xbox", "psn", "bios", "ping", "pong", "null", "void",
   "july", "june", "sept", "octo", "nov", "dec", "mon", "tue", "wed", "thu", "fri", "sat", "sun",
   "vhs", "dvd", "usb", "cpu", "ram", "pdf", "mp3", "url", "api", "sku", "vat", "gmt", "pst",
   "abc", "xyz", "qrs", "tuv", "pqr", "mno"]

/-- The fallback word list used in the `catch` branch of `init`. -/
def fallback : List String :=
  ["rust", "trust", "star", "rats", "arts", "stair", "trail", "train",
   "react", "trace", "cater", "crate", "rate", "tear", "great", "gear",
   "read", "dear", "dare", "care", "race", "rice", "word", "flow", "wolf",
   "blue", "glow", "slow", "fast", "last", "past", "lake", "peak", "beam",
   "team", "meat", "tame", "mate", "late", "tale", "nigh", "lore", "bard",
   "sage", "vale", "moor"]

/-- `w.split('').sort().join('')`: the letter signature (sorted characters). -/
def signature (w : String) : String :=
  ⟨List.insertionSort (· ≤ ·) w.data⟩

/-- The regex test `/^[a-z]+$/.test(w)`. -/
def isAlpha (w : String) : Bool :=
  w.data ≠ [] && w.data.all (fun c => 'a' ≤ c && c ≤ 'z')

/-- The regex test `/[aeiouy]/.test(w)`. -/
def hasVowel (w : String) : Bool :=
  w.data.any (fun c => c = 'a' || c = 'e' || c = 'i' || c = 'o' || c = 'u' || c = 'y')

/-- The admission predicate of the `filter` callback in `init`
(length in [4,7], all lowercase letters, has a vowel-or-y, not blacklisted). -/
def passesFilter (w : String) : Bool :=
  (decide (4 ≤ w.length) && decide (w.length ≤ 7)) && isAlpha w && hasVowel w
    && !(BLACKLIST.contains w)

/-- The ASCII whitespace stripped by `String.prototype.trim` (the raw word
list is ASCII, so the further Unicode whitespace JS strips never occurs). -/
def isSpaceChar (c : Char) : Bool :=
  c = ' ' || c = '\t' || c = '\n' || c = '\r' || c = '\x0b' || c = '\x0c'

/-- `w.trim().toLowerCase()` applied to each raw line, modelled on the
character list: strip leading and trailing whitespace, then lowercase each
character (on ASCII input JS `toLowerCase` maps A–Z to a–z characterwise). -/
def normalize (w : String) : String :=
  ⟨((w.data.dropWhile isSpaceChar).reverse.dropWhile isSpaceChar).reverse.map Char.toLower⟩

/-- `[...new Set(l)]`, via the set of elements seen so far: deduplication
keeping the first occurrence of each element, as a JS `Set` does. -/
def dedupFirstAux (seen : List String) : List String → List String
  | [] => []
  | x :: xs =>
      if x ∈ seen then dedupFirstAux seen xs
      else x :: dedupFirstAux (x :: seen) xs

/-- `[...new Set(l)]`: deduplication keeping first occurrences. -/
def dedupFirst (l : List String) : List String := dedupFirstAux [] l

/-- One step of cluster building: append `w` to the entry keyed by its
signature, creating that entry at the end on first use.  This models
`clusters.get(sorted)!.push(word)` / `clusters.set(sorted, [])` on a JS `Map`
(unique keys, insertion order preserved). -/
def addToClusters : List (String × List String) → String → List (String × List String)
  | [], w => [(signature w, [w])]
  | p :: rest, w =>
      if p.1 = signature w then (p.1, p.2 ++ [w]) :: rest
      else p :: addToClusters rest w

/-- The cluster-building loop of `init`, started from the cleared map. -/
def buildClusters (dict : List String) : List (String × List String) :=
  dict.foldl addToClusters []

/-- The engine state after `init`: the `dictionary` array and the `clusters`
map.  `dictionarySet` always equals the set of elements of `dictionary`
(`new Set(this.dictionary)`), so membership is modelled on `dictionary`. -/
structure EngineState where
  dictionary : List String
  clusters : List (String × List String)

/-- The successful-fetch path of `init`: normalize and filter the lines,
merge with `PRIORITY_WORDS` through a `Set` (first-occurrence dedup), then
rebuild the clusters. -/
def initFetch (rawLines : List String) : EngineState :=
  let fetchedWords := (rawLines.map normalize).filter passesFilter
  let combined := dedupFirst (fetchedWords ++ PRIORITY_WORDS)
  { dictionary := combined, clusters := buildClusters combined }

/-- The `catch` branch of `init`: substitute the fallback list wholesale. -/
def initFallback : EngineState :=
  { dictionary := fallback, clusters := buildClusters fallback }

/-- `init`, as a function of the fetch outcome: `some lines` models a
successful fetch whose body splits into `lines`; `none` models any failure
(network error, non-ok status), which the code catches and answers with the
fallback list.  Either way `init` returns normally. -/
def init : Option (List String) → EngineState
  | some lines => initFetch lines
  | none => initFallback

/-- `isValidWord` from the source. -/
def isValidWord (st : EngineState) (word : String) : Bool :=
  st.dictionary.contains word.toLower

/-- The count table built from `bigSorted` in `isSubset`
(`counts[char] = (counts[char] || 0) + 1`). -/
def bigCounts (big : List Char) : Char → Nat :=
  big.foldl (fun cnt c => Function.update cnt c (cnt c + 1)) (fun _ => 0)

/-- The scanning loop of `isSubset` over the candidate's characters:
fail on a missing/exhausted count, otherwise decrement and continue. -/
def scanSmall : List Char → (Char → Nat) → Bool
  | [], _ => true
  | c :: rest, cnt =>
      if cnt c = 0 then false
      else scanSmall rest (Function.update cnt c (cnt c - 1))

/-- `isSubset(smallSorted, bigSorted)` from the source. -/
def isSubset (small big : String) : Bool :=
  scanSmall small.data (bigCounts big.data)

/-- The random draws consumed by one `generateLevel` call:
`rootPick` models `Math.floor(Math.random() * rootWords.length)`;
`score i` models the score `Math.pow(Math.random(), 1 / word.length)` drawn
for the `i`-th candidate (its numeric value is irrelevant to every claim, so
it is an arbitrary rational); `shuf i` models the draw
`Math.floor(Math.random() * (i + 1))` of the Fisher–Yates iteration at
index `i`. -/
structure Rand where
  rootPick : Nat
  score : Nat → ℚ
  shuf : Nat → Nat

/-- Root selection in `generateLevel`: filter to `targetLength`, on empty
retry with length 5, then `rootWords[pick] || "water"` (in JS an
out-of-range index yields `undefined` and the empty string is falsy, both
replaced by `"water"`). -/
def selectRoot (dict : List String) (targetLength : Nat) (pick : Nat) : List String × String :=
  let rootWords := dict.filter (fun w => w.length = targetLength)
  let rootWords := if rootWords.length = 0 then dict.filter (fun w => w.length = 5) else rootWords
  let r := (rootWords.get? pick).getD ""
  (rootWords, if r = "" then "water" else r)

/-- The subset scan of `generateLevel`: walk the cluster entries in map
order and collect the word lists of every signature that is a multiset
subset of the root signature. -/
def allValidFor : List (String × List String) → String → List String
  | [], _ => []
  | p :: rest, rootSorted =>
      (if isSubset p.1 rootSorted then p.2 else []) ++ allValidFor rest rootSorted

/-- The cap used by the trimming step. -/
def maxWords : Nat := 12

/-- Descending order on scored words, as the comparator
`(a, b) => b.score - a.score` sorts. -/
def scoreOrder (a b : String × ℚ) : Prop := b.2 ≤ a.2

instance : DecidableRel scoreOrder := fun a b => by
  unfold scoreOrder; infer_instance

/-- The trimming step of `generateLevel`: keep the whole pool when it is
within the cap, otherwise score every candidate, sort descending by score
and keep the top `maxWords`. -/
def selectWords (score : Nat → ℚ) (allValid : List String) : List String :=
  if allValid.length ≤ maxWords then allValid
  else
    let scoredWords := allValid.enum.map (fun p => (p.2, score p.1))
    let sorted := List.insertionSort scoreOrder scoredWords
    (sorted.take maxWords).map Prod.fst

/-- The final comparator `(a, b) => a.length - b.length || a.localeCompare(b)`:
ascending length, then lexicographic (the words are lowercase ASCII, where
`localeCompare` agrees with codepoint order). -/
def wordOrder (a b : String) : Prop :=
  a.length < b.length ∨ (a.length = b.length ∧ a ≤ b)

instance : DecidableRel wordOrder := fun a b => by
  unfold wordOrder; infer_instance

/-- Swap the entries at positions `i` and `j` (identity when either index is
out of range; in the shuffle both are always in range). -/
def listSwap (l : List Char) (i j : Nat) : List Char :=
  match l.get? i, l.get? j with
  | some a, some b => (l.set i b).set j a
  | _, _ => l

/-- The Fisher–Yates loop of `generateLevel`, iterating `i` from
`length - 1` down to `1`, swapping position `i` with position
`rnd i % (i + 1)` (the `%` only guards totality: the JS draw
`Math.floor(Math.random() * (i + 1))` already lies in `[0, i]`). -/
def fyLoop (rnd : Nat → Nat) : Nat → List Char → List Char
  | 0, l => l
  | i + 1, l => fyLoop rnd i (listSwap l (i + 1) (rnd (i + 1) % (i + 2)))

/-- `displayLetters`: uppercase the root's characters
(`randomRoot.toUpperCase().split('')`), then shuffle in place. -/
def displayShuffle (rnd : Nat → Nat) (root : String) : List Char :=
  let letters := root.data.map Char.toUpper
  fyLoop rnd (letters.length - 1) letters

/-- `LevelData` from src/types: `foundWords` is the initially-empty set of
found words, modelled as a list. -/
structure LevelData where
  rootLetters : String
  displayLetters : List Char
  validWords : List String
  foundWords : List String
  deriving Repr, DecidableEq

/-- `generateLevel(targetLength)` from the source, with the random draws
passed explicitly. -/
def generateLevel (st : EngineState) (rand : Rand) (targetLength : Nat) : LevelData :=
  let randomRoot := (selectRoot st.dictionary targetLength rand.rootPick).2
  let rootSorted := signature randomRoot
  let allValid := allValidFor st.clusters rootSorted
  let selectedWords := selectWords rand.score allValid
  let sortedSelected := List.insertionSort wordOrder selectedWords
  { rootLetters := rootSorted
    displayLetters := displayShuffle rand.shuf randomRoot
    validWords := sortedSelected
    foundWords := [] }

/-! ### Correctness of the `isSubset` counting scan -/

theorem foldl_bigCounts (l : List Char) (cnt : Char → Nat) (c : Char) :
    (l.foldl (fun cnt c => Function.update cnt c (cnt c + 1)) cnt) c
      = cnt c + l.count c := by
  induction l generalizing cnt with
  | nil => simp
  | cons d rest ih =>
      simp only [List.foldl_cons, ih, List.count_cons]
      rcases eq_or_ne d c with h | h
      · subst h; simp [Function.update]; omega
      · simp [Function.update, h, Ne.symm h]

theorem bigCounts_count (big : List Char) (c : Char) :
    bigCounts big c = big.count c := by
  simpa using foldl_bigCounts big (fun _ => 0) c

theorem scanSmall_iff (l : List Char) (cnt : Char → Nat) :
    scanSmall l cnt = true ↔ ∀ c, l.count c ≤ cnt c := by
  induction l generalizing cnt with
  | nil => simp [scanSmall]
  | cons d rest ih =>
      by_cases h : cnt d = 0
      · simp only [scanSmall, h, if_pos rfl]
        constructor
        · intro hfalse; cases hfalse
        · intro hall
          have := hall d
          simp [List.count_cons, h] at this
      · simp only [scanSmall, if_neg h, ih]
        constructor
        · intro hall c
          have hc := hall c
          rcases eq_or_ne d c with hd | hd
          · subst hd
            simp [Function.update] at hc
            simp [List.count_cons]
            omega
          · simp [Function.update, Ne.symm hd] at hc
            simpa [List.count_cons, Ne.symm hd] using hc
        · intro hall c
          rcases eq_or_ne d c with hd | hd
          · subst hd
            have hc := hall d
            simp [List.count_cons] at hc
            simp [Function.update]
            omega
          · have hc := hall c
            simp [List.count_cons, Ne.symm hd] at hc
            simpa [Function.update, Ne.symm hd] using hc

/-- `isSubset` decides exactly the multiset-subset relation on characters. -/
theorem isSubset_iff (small big : String) :
    isSubset small big = true ↔ ∀ c, small.data.count c ≤ big.data.count c := by
  unfold isSubset
  rw [scanSmall_iff]
  constructor
  · intro h c; simpa [bigCounts_count] using h c
  · intro h c; simpa [bigCounts_count] using h c

/-! ### Deduplication -/

theorem mem_dedupFirstAux (seen l : List String) (w : String) :
    w ∈ dedupFirstAux seen l ↔ w ∈ l ∧ w ∉ seen := by
  induction l generalizing seen with
  | nil => simp [dedupFirstAux]
  | cons x xs ih =>
      by_cases hx : x ∈ seen
      · rw [dedupFirstAux, if_pos hx, ih]
        constructor
        · rintro ⟨h1, h2⟩; exact ⟨List.mem_cons_of_mem _ h1, h2⟩
        · rintro ⟨h1, h2⟩
          rcases List.mem_cons.mp h1 with h | h
          · subst h; exact absurd hx h2
          · exact ⟨h, h2⟩
      · rw [dedupFirstAux, if_neg hx]
        constructor
        · intro h
          rcases List.mem_cons.mp h with h | h
          · subst h; exact ⟨List.mem_cons_self _ _, hx⟩
          · have h' := (ih (x :: seen)).mp h
            exact ⟨List.mem_cons_of_mem _ h'.1,
              fun hs => h'.2 (List.mem_cons_of_mem _ hs)⟩
        · rintro ⟨h1, h2⟩
          rcases List.mem_cons.mp h1 with h | h
          · subst h; exact List.mem_cons_self _ _
          · by_cases hwx : w = x
            · subst hwx; exact List.mem_cons_self _ _
            · refine List.mem_cons_of_mem _ ((ih (x :: seen)).mpr ⟨h, ?_⟩)
              simp [hwx, h2]

theorem nodup_dedupFirstAux (seen l : List String) :
    (dedupFirstAux seen l).Nodup := by
  induction l generalizing seen with
  | nil => simp [dedupFirstAux]
  | cons x xs ih =>
      by_cases hx : x ∈ seen
      · rw [dedupFirstAux, if_pos hx]; exact ih seen
      · rw [dedupFirstAux, if_neg hx]
        refine List.nodup_cons.mpr ⟨?_, ih (x :: seen)⟩
        intro hmem
        exact ((mem_dedupFirstAux _ _ _).mp hmem).2 (List.mem_cons_self _ _)

theorem mem_dedupFirst (l : List String) (w : String) :
    w ∈ dedupFirst l ↔ w ∈ l := by
  simp [dedupFirst, mem_dedupFirstAux]

theorem nodup_dedupFirst (l : List String) : (dedupFirst l).Nodup :=
  nodup_dedupFirstAux [] l

/-- The dictionary produced by `init` never contains a repeated word. -/
theorem init_dictionary_nodup (r : Option (List String)) :
    (init r).dictionary.Nodup := by
  cases r with
  | some lines => exact nodup_dedupFirst _
  | none => decide

/-! ### The admission predicate, in propositional form -/

theorem passesFilter_spec (w : String) (h : passesFilter w = true) :
    (4 ≤ w.length ∧ w.length ≤ 7)
    ∧ (∀ c ∈ w.data, 'a' ≤ c ∧ c ≤ 'z')
    ∧ (∃ c ∈ w.data, c ∈ (['a', 'e', 'i', 'o', 'u', 'y'] : List Char))
    ∧ w ∉ BLACKLIST := by
  simp only [passesFilter, isAlpha, hasVowel, Bool.and_eq_true, Bool.not_eq_true',
    decide_eq_true_iff, List.all_eq_true, List.any_eq_true, ne_eq,
    Bool.or_eq_true] at h
  obtain ⟨⟨⟨hlen, hne, halpha⟩, hvow⟩, hbl⟩ := h
  refine ⟨hlen, ?_, ?_, ?_⟩
  · intro c hc; exact halpha c hc
  · obtain ⟨c, hc, hcv⟩ := hvow
    refine ⟨c, hc, ?_⟩
    rcases hcv with ((((h | h) | h) | h) | h) | h <;> simp [h]
  · intro hmem
    have h1 : List.elem w BLACKLIST = true := List.elem_iff.mpr hmem
    have h2 : BLACKLIST.contains w = List.elem w BLACKLIST := rfl
    rw [h2, h1] at hbl
    cases hbl

/-- Every word of `PRIORITY_WORDS` also passes the admission filter. -/
theorem priority_passesFilter : PRIORITY_WORDS.all passesFilter = true := by decide

/-- Every word of the fallback list also passes the admission filter. -/
theorem fallback_passesFilter : fallback.all passesFilter = true := by decide

/-! ### C1: the subset scan -/

/-- C1 counterexample: the claim states that "trains" is classified invalid
against root "strain", but "trains" is an anagram of "strain" (each has
exactly one 's'), so its signature equals the root signature "ainrst" and
the scan classifies it as a valid subset match. -/
theorem isSubset_trains_valid :
    signature "trains" = "ainrst" ∧ signature "strain" = "ainrst"
    ∧ isSubset (signature "trains") (signature "strain") = true := by decide

/-- C1 (amended): `isSubset` decides exactly the multiset-subset test
(every character of the candidate signature occurs in the root signature
with at least the same multiplicity); for root "strain" (signature
"ainrst"), "rain", "rant", "stair", "train", "saint" are all classified as
valid subset matches, and so is "trains", being an anagram of "strain". -/
theorem isSubset_multiset_spec :
    (∀ small big : String,
      isSubset small big = true ↔ ∀ c, small.data.count c ≤ big.data.count c)
    ∧ signature "strain" = "ainrst"
    ∧ (["rain", "rant", "stair", "train", "saint", "trains"].all
        (fun w => isSubset (signature w) (signature "strain")) = true) :=
  ⟨isSubset_iff, by decide, by decide⟩

/-! ### C2: the fallback list -/

/-- C2 counterexample: the fallback dictionary substituted by `init` on
source failure does not contain the supplement word "fain" (nor 14 other
`PRIORITY_WORDS`), and contains no word longer than 5 letters, so it
neither spans lengths 4–7 nor includes the whole curated supplement. -/
theorem fallback_misses_supplement :
    ("fain" ∈ PRIORITY_WORDS ∧ (init none).dictionary.contains "fain" = false)
    ∧ (init none).dictionary.all (fun w => decide (w.length ≤ 5)) = true := by decide

/-- C2 (amended): when the raw source fails, `init` substitutes the
fallback list, which has at least 40 words, spans lengths 4 through 5 only,
and includes six of the curated supplement words (nigh, lore, bard, sage,
vale, moor) but not the whole supplement. -/
theorem fallback_list_spec :
    (init none).dictionary = fallback
    ∧ 40 ≤ fallback.length
    ∧ fallback.all (fun w => decide (4 ≤ w.length) && decide (w.length ≤ 5)) = true
    ∧ fallback.any (fun w => decide (w.length = 4)) = true
    ∧ fallback.any (fun w => decide (w.length = 5)) = true
    ∧ (["nigh", "lore", "bard", "sage", "vale", "moor"].all
        (fun w => fallback.contains w) = true)
    ∧ PRIORITY_WORDS.all (fun w => fallback.contains w) = false := by decide

/-! ### C4: the dictionary admission invariant -/

/-- C4: every word of the dictionary produced by `init` — on the fetch path
(filtered raw words merged with `PRIORITY_WORDS`) as well as on the
fallback path — has length between 4 and 7, consists of ASCII letters a–z
only, contains a vowel-or-y, and is not blacklisted. -/
theorem init_dictionary_admissible (r : Option (List String)) (w : String)
    (hw : w ∈ (init r).dictionary) :
    (4 ≤ w.length ∧ w.length ≤ 7)
    ∧ (∀ c ∈ w.data, 'a' ≤ c ∧ c ≤ 'z')
    ∧ (∃ c ∈ w.data, c ∈ (['a', 'e', 'i', 'o', 'u', 'y'] : List Char))
    ∧ w ∉ BLACKLIST := by
  refine passesFilter_spec w ?_
  cases r with
  | some lines =>
      have hw' := (mem_dedupFirst _ _).mp hw
      rcases List.mem_append.mp hw' with h | h
      · exact (List.mem_filter.mp h).2
      · exact List.all_eq_true.mp priority_passesFilter w h
  | none =>
      exact List.all_eq_true.mp fallback_passesFilter w hw

/-! ### Cluster index invariants -/

theorem addToClusters_content (cs : List (String × List String)) (w : String)
    (h : ∀ p ∈ cs, ∀ x ∈ p.2, signature x = p.1) :
    ∀ p ∈ addToClusters cs w, ∀ x ∈ p.2, signature x = p.1 := by
  induction cs with
  | nil =>
      intro p hp x hx
      simp only [addToClusters, List.mem_singleton] at hp
      subst hp
      simp only [List.mem_singleton] at hx
      subst hx; rfl
  | cons q rest ih =>
      intro p hp x hx
      rw [addToClusters] at hp
      by_cases hq : q.1 = signature w
      · rw [if_pos hq] at hp
        rcases List.mem_cons.mp hp with h1 | h1
        · subst h1
          rcases List.mem_append.mp hx with hx' | hx'
          · exact h q (List.mem_cons_self _ _) x hx'
          · simp only [List.mem_singleton] at hx'
            subst hx'; exact hq.symm
        · exact h p (List.mem_cons_of_mem _ h1) x hx
      · rw [if_neg hq] at hp
        rcases List.mem_cons.mp hp with h1 | h1
        · subst h1; exact h p (List.mem_cons_self _ _) x hx
        · exact ih (fun p' hp' => h p' (List.mem_cons_of_mem _ hp')) p h1 x hx

theorem addToClusters_keys (cs : List (String × List String)) (w : String) :
    (addToClusters cs w).map Prod.fst =
      if signature w ∈ cs.map Prod.fst then cs.map Prod.fst
      else cs.map Prod.fst ++ [signature w] := by
  induction cs with
  | nil => simp [addToClusters]
  | cons q rest ih =>
      by_cases hq : q.1 = signature w
      · rw [addToClusters, if_pos hq]
        simp [hq.symm]
      · rw [addToClusters, if_neg hq]
        simp only [List.map_cons]
        rw [ih]
        by_cases hmem : signature w ∈ rest.map Prod.fst
        · rw [if_pos hmem, if_pos (by simp [hmem])]
        · rw [if_neg hmem, if_neg (by simp [hmem, Ne.symm hq]),
            List.cons_append]

theorem addToClusters_keys_nodup (cs : List (String × List String)) (w : String)
    (h : (cs.map Prod.fst).Nodup) :
    ((addToClusters cs w).map Prod.fst).Nodup := by
  rw [addToClusters_keys]
  by_cases hmem : signature w ∈ cs.map Prod.fst
  · rw [if_pos hmem]; exact h
  · rw [if_neg hmem]
    simp [List.nodup_append, h, hmem]

theorem addToClusters_flatten (cs : List (String × List String)) (w : String) :
    ((addToClusters cs w).map Prod.snd).flatten ~ (cs.map Prod.snd).flatten ++ [w] := by
  induction cs with
  | nil => simp [addToClusters]
  | cons q rest ih =>
      by_cases hq : q.1 = signature w
      · rw [addToClusters, if_pos hq]
        simp only [List.map_cons, List.flatten_cons]
        calc (q.2 ++ [w]) ++ (rest.map Prod.snd).flatten
            = q.2 ++ ([w] ++ (rest.map Prod.snd).flatten) := by
              simp [List.append_assoc]
          _ ~ q.2 ++ ((rest.map Prod.snd).flatten ++ [w]) :=
              List.Perm.append_left _ List.perm_append_comm
          _ = (q.2 ++ (rest.map Prod.snd).flatten) ++ [w] := by
              simp [List.append_assoc]
      · rw [addToClusters, if_neg hq]
        simp only [List.map_cons, List.flatten_cons]
        calc q.2 ++ ((addToClusters rest w).map Prod.snd).flatten
            ~ q.2 ++ ((rest.map Prod.snd).flatten ++ [w]) :=
              List.Perm.append_left _ ih
          _ = (q.2 ++ (rest.map Prod.snd).flatten) ++ [w] := by
              simp [List.append_assoc]

theorem foldl_addToClusters_content (ws : List String)
    (cs : List (String × List String))
    (h : ∀ p ∈ cs, ∀ x ∈ p.2, signature x = p.1) :
    ∀ p ∈ ws.foldl addToClusters cs, ∀ x ∈ p.2, signature x = p.1 := by
  induction ws generalizing cs with
  | nil => exact h
  | cons w ws ih => exact ih _ (addToClusters_content cs w h)

theorem foldl_addToClusters_keys_nodup (ws : List String)
    (cs : List (String × List String))
    (h : (cs.map Prod.fst).Nodup) :
    ((ws.foldl addToClusters cs).map Prod.fst).Nodup := by
  induction ws generalizing cs with
  | nil => exact h
  | cons w ws ih => exact ih _ (addToClusters_keys_nodup cs w h)

theorem foldl_addToClusters_flatten (ws : List String)
    (cs : List (String × List String)) :
    ((ws.foldl addToClusters cs).map Prod.snd).flatten
      ~ (cs.map Prod.snd).flatten ++ ws := by
  induction ws generalizing cs with
  | nil => simp
  | cons w ws ih =>
      calc ((ws.foldl addToClusters (addToClusters cs w)).map Prod.snd).flatten
          ~ ((addToClusters cs w).map Prod.snd).flatten ++ ws := ih _
        _ ~ ((cs.map Prod.snd).flatten ++ [w]) ++ ws :=
            (addToClusters_flatten cs w).append_right ws
        _ = (cs.map Prod.snd).flatten ++ (w :: ws) := by simp

/-- Each cluster built by `init` holds exactly words of its key signature. -/
theorem buildClusters_content (dict : List String) :
    ∀ p ∈ buildClusters dict, ∀ x ∈ p.2, signature x = p.1 :=
  foldl_addToClusters_content dict [] (by simp)

/-- The cluster keys built by `init` are pairwise distinct. -/
theorem buildClusters_keys_nodup (dict : List String) :
    ((buildClusters dict).map Prod.fst).Nodup :=
  foldl_addToClusters_keys_nodup dict [] (by simp)

/-- The concatenation of all cluster word lists is a permutation of the
dictionary they were built from. -/
theorem buildClusters_flatten (dict : List String) :
    ((buildClusters dict).map Prod.snd).flatten ~ dict := by
  simpa using foldl_addToClusters_flatten dict []

/-- Every dictionary word lies in the cluster keyed by its signature. -/
theorem mem_buildClusters (dict : List String) (w : String) (hw : w ∈ dict) :
    ∃ p ∈ buildClusters dict, p.1 = signature w ∧ w ∈ p.2 := by
  have hmem : w ∈ ((buildClusters dict).map Prod.snd).flatten :=
    (buildClusters_flatten dict).mem_iff.mpr hw
  obtain ⟨l, hl, hwl⟩ := List.mem_flatten.mp hmem
  obtain ⟨p, hp, rfl⟩ := List.mem_map.mp hl
  exact ⟨p, hp, (buildClusters_content dict p hp w hwl).symm, hwl⟩

/-- C4 witness: the raw line "Rain " is normalized to "rain", admitted on
the fetch path, and satisfies all four admission properties. -/
theorem init_dictionary_admissible_witness :
    "rain" ∈ (init (some ["Rain "])).dictionary
    ∧ ((4 ≤ "rain".length ∧ "rain".length ≤ 7)
       ∧ (∀ c ∈ "rain".data, 'a' ≤ c ∧ c ≤ 'z')
       ∧ (∃ c ∈ "rain".data, c ∈ (['a', 'e', 'i', 'o', 'u', 'y'] : List Char))
       ∧ "rain" ∉ BLACKLIST) :=
  ⟨by decide, init_dictionary_admissible (some ["Rain "]) "rain" (by decide)⟩

/-! ### C8: the cluster index partitions the dictionary -/

/-- C8: after `init` (fetch or fallback path) the Cluster Index partitions
the Dictionary: the dictionary is duplicate-free, cluster keys are pairwise
distinct, every cluster holds only words whose signature is its key, the
concatenation of all cluster word lists is a permutation of the dictionary
(so the union equals the Dictionary with no duplicates across clusters),
and every word occurs in the cluster keyed by its own signature. -/
theorem init_clusters_partition (r : Option (List String)) :
    (init r).dictionary.Nodup
    ∧ ((init r).clusters.map Prod.fst).Nodup
    ∧ (∀ p ∈ (init r).clusters, ∀ x ∈ p.2, signature x = p.1)
    ∧ ((init r).clusters.map Prod.snd).flatten ~ (init r).dictionary
    ∧ (∀ w ∈ (init r).dictionary,
        ∃ p ∈ (init r).clusters, p.1 = signature w ∧ w ∈ p.2) := by
  have hc : (init r).clusters = buildClusters (init r).dictionary := by
    cases r <;> rfl
  rw [hc]
  exact ⟨init_dictionary_nodup r, buildClusters_keys_nodup _,
    buildClusters_content _, buildClusters_flatten _,
    fun w hw => mem_buildClusters _ w hw⟩

/-- C8 witness: on the fallback path, concatenating the cluster word lists
gives back exactly the 46 fallback words. -/
theorem init_clusters_partition_witness :
    ((init none).clusters.map Prod.snd).flatten ~ (init none).dictionary :=
  (init_clusters_partition none).2.2.2.1

/-! ### Root selection -/

theorem selectRoot_fst (dict : List String) (t pick : Nat) :
    (selectRoot dict t pick).1 =
      if (dict.filter (fun w => w.length = t)).length = 0 then
        dict.filter (fun w => w.length = 5)
      else dict.filter (fun w => w.length = t) := rfl

theorem selectRoot_snd (dict : List String) (t pick : Nat) :
    (selectRoot dict t pick).2 =
      if ((selectRoot dict t pick).1.get? pick).getD "" = "" then "water"
      else ((selectRoot dict t pick).1.get? pick).getD "" := rfl

/-- The selected root is always a dictionary word or the default "water":
no degenerate candidate pool can surface as an error. -/
theorem selectRoot_total (dict : List String) (t pick : Nat) :
    (selectRoot dict t pick).2 ∈ dict ∨ (selectRoot dict t pick).2 = "water" := by
  rw [selectRoot_snd]
  cases hp : (selectRoot dict t pick).1.get? pick with
  | none => simp
  | some w =>
      have hw : w ∈ (selectRoot dict t pick).1 := List.get?_mem hp
      have hwd : w ∈ dict := by
        rw [selectRoot_fst] at hw
        split at hw <;> exact (List.mem_filter.mp hw).1
      by_cases he : w = ""
      · simp [hp, he]
      · simp only [hp, Option.getD_some, if_neg he]
        exact Or.inl hwd

/-- C5: root selection filters the ordered dictionary to words of exactly
`targetLength`; if that filter is empty it retries once with length 5; if
the retry is also empty the root is the fixed default "water"; in every
case a root is produced (never an error), and an in-range pick returns
exactly the picked candidate. -/
theorem selectRoot_retry_chain (dict : List String) (t pick : Nat) :
    (dict.filter (fun w => w.length = t) ≠ [] →
      (selectRoot dict t pick).1 = dict.filter (fun w => w.length = t))
    ∧ (dict.filter (fun w => w.length = t) = [] →
      (selectRoot dict t pick).1 = dict.filter (fun w => w.length = 5))
    ∧ (dict.filter (fun w => w.length = t) = [] →
       dict.filter (fun w => w.length = 5) = [] →
      (selectRoot dict t pick).2 = "water")
    ∧ (0 < t → ∀ h : pick < (selectRoot dict t pick).1.length,
      (selectRoot dict t pick).2 = (selectRoot dict t pick).1.get ⟨pick, h⟩)
    ∧ ((selectRoot dict t pick).2 ∈ dict ∨ (selectRoot dict t pick).2 = "water") := by
  refine ⟨?_, ?_, ?_, ?_, selectRoot_total dict t pick⟩
  · intro hne
    rw [selectRoot_fst, if_neg (by simpa [List.length_eq_zero] using hne)]
  · intro he
    rw [selectRoot_fst, if_pos (by simp [he])]
  · intro he h5
    have h1 : (selectRoot dict t pick).1 = dict.filter (fun w => w.length = 5) := by
      rw [selectRoot_fst, if_pos (by simp [he])]
    rw [selectRoot_snd, h1, h5]
    simp
  · intro ht h
    have hg : (selectRoot dict t pick).1.get? pick
        = some ((selectRoot dict t pick).1.get ⟨pick, h⟩) := List.get?_eq_get h
    have hmem : (selectRoot dict t pick).1.get ⟨pick, h⟩
        ∈ (selectRoot dict t pick).1 := List.get_mem _ _ _
    have hsub : ∀ w ∈ (selectRoot dict t pick).1, 0 < w.length := by
      intro w hw
      rw [selectRoot_fst] at hw
      split at hw <;>
      · have := (List.mem_filter.mp hw).2
        simp only [decide_eq_true_eq] at this
        omega
    have hlen : 0 < ((selectRoot dict t pick).1.get ⟨pick, h⟩).length :=
      hsub _ hmem
    have hne : (selectRoot dict t pick).1.get ⟨pick, h⟩ ≠ "" := by
      intro heq
      rw [heq] at hlen
      simp at hlen
    rw [selectRoot_snd, hg]
    simp only [Option.getD_some]
    rw [if_neg hne]

/-- C5 witness: on the fallback dictionary with `targetLength = 6` and pick
0 the 6-letter filter is empty, the retry filter is the nine 5-letter
fallback words, and the selected root is "trust". -/
theorem selectRoot_retry_chain_witness :
    (fallback.filter (fun w => w.length = 6) = [] →
      (selectRoot fallback 6 0).1 = fallback.filter (fun w => w.length = 5))
    ∧ (selectRoot fallback 6 0).2 = "trust" := by
  refine ⟨(selectRoot_retry_chain fallback 6 0).2.1, ?_⟩
  have h := (selectRoot_retry_chain fallback 6 0).2.2.2.1 (by decide)
  rw [h (by decide)]
  decide

/-! ### C6: the degenerate length scenario -/

/-- C6 counterexample: the dictionary ["blithe", "water"] has a 6-letter
word but no 7-letter word; `generateLevel(7)` nevertheless selects root
"water" — its `rootLetters` is the 5-character signature "aertw", not the
signature of the 6-letter word "blithe": the retry uses length 5, not
length 6. -/
theorem generateLevel_no7_picks_5 :
    ((["blithe", "water"] : List String).filter (fun w => w.length = 7) = [])
    ∧ (generateLevel ⟨["blithe", "water"], buildClusters ["blithe", "water"]⟩
        ⟨0, fun _ => 0, fun _ => 0⟩ 7).rootLetters = "aertw"
    ∧ ("aertw" : String).length = 5
    ∧ signature "blithe" ≠ "aertw" := by decide

/-- C6 (amended): on a dictionary containing no 7-letter words,
`generateLevel(7)` falls back to length 5 without error: it selects its
root among the 5-letter words. -/
theorem selectRoot_no7_falls_back_to_5 (dict : List String) (pick : Nat)
    (h7 : dict.filter (fun w => w.length = 7) = [])
    (h : pick < (dict.filter (fun w => w.length = 5)).length) :
    (selectRoot dict 7 pick).1 = dict.filter (fun w => w.length = 5)
    ∧ (selectRoot dict 7 pick).2 ∈ dict.filter (fun w => w.length = 5)
    ∧ (selectRoot dict 7 pick).2.length = 5 := by
  have h1 : (selectRoot dict 7 pick).1 = dict.filter (fun w => w.length = 5) :=
    (selectRoot_retry_chain dict 7 pick).2.1 h7
  have h' : pick < (selectRoot dict 7 pick).1.length := by rw [h1]; exact h
  have h2 : (selectRoot dict 7 pick).2 = (selectRoot dict 7 pick).1.get ⟨pick, h'⟩ :=
    (selectRoot_retry_chain dict 7 pick).2.2.2.1 (by omega) h'
  have hmem : (selectRoot dict 7 pick).2 ∈ dict.filter (fun w => w.length = 5) := by
    rw [h2, ← h1]
    exact List.get_mem _ _ _
  refine ⟨h1, hmem, ?_⟩
  have := (List.mem_filter.mp hmem).2
  simpa using this

/-- C6 witness: on ["blithe", "water"] with pick 0, the retry filter is
["water"] and the selected root "water" has length 5. -/
theorem selectRoot_no7_falls_back_to_5_witness :
    (selectRoot ["blithe", "water"] 7 0).1 = ["water"]
    ∧ (selectRoot ["blithe", "water"] 7 0).2.length = 5 := by
  have h := selectRoot_no7_falls_back_to_5 ["blithe", "water"] 0
    (by decide) (by decide)
  exact ⟨by rw [h.1]; decide, h.2.2⟩

/-! ### The candidate pool -/

theorem allValidFor_sublist (cs : List (String × List String)) (rs : String) :
    (allValidFor cs rs).Sublist (cs.map Prod.snd).flatten := by
  induction cs with
  | nil => simp [allValidFor]
  | cons p rest ih =>
      rw [allValidFor]
      simp only [List.map_cons, List.flatten_cons]
      by_cases hp : isSubset p.1 rs = true
      · rw [if_pos hp]
        exact (List.Sublist.refl p.2).append ih
      · rw [if_neg hp, List.nil_append]
        exact ih.trans (List.sublist_append_right _ _)

theorem mem_allValidFor (cs : List (String × List String)) (rs : String)
    (w : String) :
    w ∈ allValidFor cs rs ↔ ∃ p ∈ cs, isSubset p.1 rs = true ∧ w ∈ p.2 := by
  induction cs with
  | nil => simp [allValidFor]
  | cons p rest ih =>
      rw [allValidFor]
      by_cases hp : isSubset p.1 rs = true
      · rw [if_pos hp]
        simp only [List.mem_append, ih, List.mem_cons]
        constructor
        · rintro (hw | ⟨q, hq, hqs, hqw⟩)
          · exact ⟨p, Or.inl rfl, hp, hw⟩
          · exact ⟨q, Or.inr hq, hqs, hqw⟩
        · rintro ⟨q, hq | hq, hqs, hqw⟩
          · subst hq; exact Or.inl hqw
          · exact Or.inr ⟨q, hq, hqs, hqw⟩
      · rw [if_neg hp, List.nil_append]
        simp only [ih, List.mem_cons]
        constructor
        · rintro ⟨q, hq, hqs, hqw⟩
          exact ⟨q, Or.inr hq, hqs, hqw⟩
        · rintro ⟨q, hq | hq, hqs, hqw⟩
          · subst hq; exact absurd hqs hp
          · exact ⟨q, hq, hqs, hqw⟩

/-- The root signature is a multiset subset of itself, so the root's own
cluster always passes the scan. -/
theorem isSubset_self (s : String) : isSubset s s = true :=
  (isSubset_iff s s).mpr (fun _ => le_rfl)

/-- A dictionary word whose cluster signature passes the scan lies in the
candidate pool; in particular the root word itself always does. -/
theorem mem_pool_of_mem_dict (dict : List String) (w : String) (rs : String)
    (hw : w ∈ dict) (hs : isSubset (signature w) rs = true) :
    w ∈ allValidFor (buildClusters dict) rs := by
  obtain ⟨p, hp, hkey, hwp⟩ := mem_buildClusters dict w hw
  exact (mem_allValidFor _ _ _).mpr ⟨p, hp, by rw [hkey]; exact hs, hwp⟩

/-- The candidate pool built from a duplicate-free dictionary is
duplicate-free. -/
theorem allValidFor_nodup (dict : List String) (rs : String)
    (h : dict.Nodup) :
    (allValidFor (buildClusters dict) rs).Nodup :=
  ((buildClusters_flatten dict).nodup_iff.mpr h).sublist
    (allValidFor_sublist _ _)

/-! ### The trimming step -/

theorem scored_map_fst (score : Nat → ℚ) (l : List String) :
    (l.enum.map (fun p => (p.2, score p.1))).map Prod.fst = l := by
  rw [List.map_map]
  simp [Function.comp_def]

theorem selectWords_small (score : Nat → ℚ) (l : List String)
    (h : l.length ≤ maxWords) : selectWords score l = l := by
  simp [selectWords, h]

theorem selectWords_large (score : Nat → ℚ) (l : List String)
    (h : maxWords < l.length) :
    (selectWords score l).length = maxWords
    ∧ (∀ w ∈ selectWords score l, w ∈ l)
    ∧ (l.Nodup → (selectWords score l).Nodup) := by
  have hif : selectWords score l =
      ((List.insertionSort scoreOrder
        (l.enum.map (fun p => (p.2, score p.1)))).take maxWords).map Prod.fst := by
    simp [selectWords, Nat.not_le.mpr h]
  have hperm : List.insertionSort scoreOrder (l.enum.map (fun p => (p.2, score p.1)))
      ~ l.enum.map (fun p => (p.2, score p.1)) :=
    List.perm_insertionSort _ _
  have hlen : (List.insertionSort scoreOrder
      (l.enum.map (fun p => (p.2, score p.1)))).length = l.length := by
    rw [hperm.length_eq, List.length_map, List.enum_length]
  have hfst : (List.insertionSort scoreOrder
        (l.enum.map (fun p => (p.2, score p.1)))).map Prod.fst ~ l := by
    calc (List.insertionSort scoreOrder
          (l.enum.map (fun p => (p.2, score p.1)))).map Prod.fst
        ~ (l.enum.map (fun p => (p.2, score p.1))).map Prod.fst := hperm.map _
      _ = l := scored_map_fst score l
  refine ⟨?_, ?_, ?_⟩
  · rw [hif, List.length_map, List.length_take, hlen]
    omega
  · intro w hw
    rw [hif] at hw
    obtain ⟨q, hq, rfl⟩ := List.mem_map.mp hw
    have hq' : q ∈ List.insertionSort scoreOrder
        (l.enum.map (fun p => (p.2, score p.1))) :=
      (List.take_sublist _ _).mem hq
    have : q.1 ∈ (List.insertionSort scoreOrder
        (l.enum.map (fun p => (p.2, score p.1)))).map Prod.fst :=
      List.mem_map_of_mem _ hq'
    exact hfst.mem_iff.mp this
  · intro hnd
    rw [hif]
    have h1 : ((List.insertionSort scoreOrder
        (l.enum.map (fun p => (p.2, score p.1)))).map Prod.fst).Nodup :=
      hfst.nodup_iff.mpr hnd
    have h2 : ((List.insertionSort scoreOrder
          (l.enum.map (fun p => (p.2, score p.1)))).take maxWords).map Prod.fst
        |>.Sublist ((List.insertionSort scoreOrder
          (l.enum.map (fun p => (p.2, score p.1)))).map Prod.fst) :=
      (List.take_sublist _ _).map _
    exact h1.sublist h2

/-! ### The display shuffle -/

theorem headSwap_perm (xs : List Char) (j : Nat) (x b : Char)
    (hb : xs.get? j = some b) :
    b :: xs.set j x ~ x :: xs := by
  induction xs generalizing j with
  | nil => cases hb
  | cons y ys ih =>
      cases j with
      | zero =>
          simp only [List.get?_cons_zero, Option.some_inj] at hb
          subst hb
          exact List.Perm.swap x y ys
      | succ m =>
          simp only [List.get?_cons_succ] at hb
          calc b :: y :: ys.set m x
              ~ y :: b :: ys.set m x := List.Perm.swap y b _
            _ ~ y :: x :: ys := (ih m hb).cons y
            _ ~ x :: y :: ys := List.Perm.swap x y ys

theorem set_set_swap_perm (l : List Char) (i j : Nat) (a b : Char)
    (ha : l.get? i = some a) (hb : l.get? j = some b) :
    (l.set i b).set j a ~ l := by
  induction l generalizing i j with
  | nil => cases ha
  | cons x xs ih =>
      cases i with
      | zero =>
          simp only [List.get?_cons_zero, Option.some_inj] at ha
          subst ha
          cases j with
          | zero =>
              simp only [List.get?_cons_zero, Option.some_inj] at hb
              subst hb
              simp
          | succ m =>
              simp only [List.get?_cons_succ] at hb
              simpa using headSwap_perm xs m x b hb
      | succ n =>
          simp only [List.get?_cons_succ] at ha
          cases j with
          | zero =>
              simp only [List.get?_cons_zero, Option.some_inj] at hb
              subst hb
              simpa using headSwap_perm xs n x a ha
          | succ m =>
              simp only [List.get?_cons_succ] at hb
              simpa using (ih n m ha hb).cons x

theorem listSwap_perm (l : List Char) (i j : Nat) : listSwap l i j ~ l := by
  unfold listSwap
  cases ha : l.get? i with
  | none => exact List.Perm.refl l
  | some a =>
      cases hb : l.get? j with
      | none => exact List.Perm.refl l
      | some b => exact set_set_swap_perm l i j a b ha hb

theorem fyLoop_perm (rnd : Nat → Nat) (n : Nat) (l : List Char) :
    fyLoop rnd n l ~ l := by
  induction n generalizing l with
  | zero => exact List.Perm.refl l
  | succ i ih =>
      exact (ih _).trans (listSwap_perm l (i + 1) (rnd (i + 1) % (i + 2)))

/-- The shuffled display letters are a permutation of the uppercased root
characters. -/
theorem displayShuffle_perm (rnd : Nat → Nat) (root : String) :
    displayShuffle rnd root ~ root.data.map Char.toUpper :=
  fyLoop_perm rnd _ _

/-! ### C3: the selection cap -/

/-- C3: for every `generateLevel` call on an initialized engine, with pool
the cluster words whose signature is a multiset subset of the root
signature: when the pool has at most 12 words, `validWords` consists of
exactly the pool (reordered by the final length-then-lexicographic sort);
when the pool exceeds 12 words, `validWords` has exactly 12 elements, all
drawn from the pool, with no duplicates. -/
theorem generateLevel_cap (r : Option (List String)) (rand : Rand) (t : Nat) :
    ((allValidFor (init r).clusters
        (signature (selectRoot (init r).dictionary t rand.rootPick).2)).length ≤ 12 →
      (generateLevel (init r) rand t).validWords
        ~ allValidFor (init r).clusters
            (signature (selectRoot (init r).dictionary t rand.rootPick).2))
    ∧ (12 < (allValidFor (init r).clusters
        (signature (selectRoot (init r).dictionary t rand.rootPick).2)).length →
      (generateLevel (init r) rand t).validWords.length = 12
      ∧ (∀ w ∈ (generateLevel (init r) rand t).validWords,
          w ∈ allValidFor (init r).clusters
            (signature (selectRoot (init r).dictionary t rand.rootPick).2))
      ∧ (generateLevel (init r) rand t).validWords.Nodup) := by
  have hv : (generateLevel (init r) rand t).validWords
      = List.insertionSort wordOrder (selectWords rand.score
          (allValidFor (init r).clusters
            (signature (selectRoot (init r).dictionary t rand.rootPick).2))) := rfl
  have hperm : (generateLevel (init r) rand t).validWords
      ~ selectWords rand.score (allValidFor (init r).clusters
          (signature (selectRoot (init r).dictionary t rand.rootPick).2)) := by
    rw [hv]; exact List.perm_insertionSort _ _
  have hclusters : (init r).clusters = buildClusters (init r).dictionary := by
    cases r <;> rfl
  constructor
  · intro h
    have hsel : selectWords rand.score (allValidFor (init r).clusters
        (signature (selectRoot (init r).dictionary t rand.rootPick).2))
        = allValidFor (init r).clusters
            (signature (selectRoot (init r).dictionary t rand.rootPick).2) :=
      selectWords_small _ _ h
    rw [hsel] at hperm
    exact hperm
  · intro h
    have hsel := selectWords_large rand.score (allValidFor (init r).clusters
        (signature (selectRoot (init r).dictionary t rand.rootPick).2)) h
    have hnodup : (allValidFor (init r).clusters
        (signature (selectRoot (init r).dictionary t rand.rootPick).2)).Nodup := by
      rw [hclusters]
      exact allValidFor_nodup _ _ (init_dictionary_nodup r)
    refine ⟨?_, ?_, ?_⟩
    · rw [hperm.length_eq, hsel.1]; rfl
    · intro w hw
      exact hsel.2.1 w (hperm.mem_iff.mp hw)
    · exact hperm.nodup_iff.mpr (hsel.2.2 hnodup)

/-- C3 witness: a one-line raw source admits "rain" next to the priority
words; for `targetLength = 4` with pick 0 the root is "rain", the candidate
pool is exactly ["rain"] (size 1 ≤ 12), and `validWords` is a permutation
of it. -/
theorem generateLevel_cap_witness :
    (allValidFor (init (some ["rain"])).clusters
        (signature (selectRoot (init (some ["rain"])).dictionary 4 0).2)).length ≤ 12
    ∧ ((generateLevel (init (some ["rain"])) ⟨0, fun _ => 0, fun _ => 0⟩ 4).validWords
        ~ allValidFor (init (some ["rain"])).clusters
            (signature (selectRoot (init (some ["rain"])).dictionary 4 0).2)) :=
  ⟨by decide,
   (generateLevel_cap (some ["rain"]) ⟨0, fun _ => 0, fun _ => 0⟩ 4).1 (by decide)⟩

/-! ### C7: the fallback path stays playable -/

/-- C7: `init` is total in this embedding (it returns an engine state on
every fetch outcome); when the source always fails, the resulting
dictionary is the non-empty fallback list, and `generateLevel 6` — whose
6-letter filter is empty on the fallback, so it retries at length 5 —
returns a level with non-empty `validWords`, for every in-range root pick
and any scores. -/
theorem init_fallback_playable (rand : Rand)
    (h : rand.rootPick
        < ((init none).dictionary.filter (fun w => w.length = 5)).length) :
    (init none).dictionary ≠ []
    ∧ (generateLevel (init none) rand 6).validWords ≠ [] := by
  refine ⟨by decide, ?_⟩
  have h6 : (init none).dictionary.filter (fun w => w.length = 6) = [] := by decide
  have h1 : (selectRoot (init none).dictionary 6 rand.rootPick).1
      = (init none).dictionary.filter (fun w => w.length = 5) :=
    (selectRoot_retry_chain _ 6 rand.rootPick).2.1 h6
  have h' : rand.rootPick < (selectRoot (init none).dictionary 6 rand.rootPick).1.length := by
    rw [h1]; exact h
  have hroot : (selectRoot (init none).dictionary 6 rand.rootPick).2
      = (selectRoot (init none).dictionary 6 rand.rootPick).1.get ⟨rand.rootPick, h'⟩ :=
    (selectRoot_retry_chain _ 6 rand.rootPick).2.2.2.1 (by omega) h'
  have hmem5 : (selectRoot (init none).dictionary 6 rand.rootPick).2
      ∈ (init none).dictionary.filter (fun w => w.length = 5) := by
    rw [hroot, ← h1]
    exact List.get_mem _ _ _
  have hmemd : (selectRoot (init none).dictionary 6 rand.rootPick).2
      ∈ (init none).dictionary := (List.mem_filter.mp hmem5).1
  have hpool : (selectRoot (init none).dictionary 6 rand.rootPick).2
      ∈ allValidFor (init none).clusters
          (signature (selectRoot (init none).dictionary 6 rand.rootPick).2) :=
    mem_pool_of_mem_dict _ _ _ hmemd (isSubset_self _)
  have hpoolne : allValidFor (init none).clusters
      (signature (selectRoot (init none).dictionary 6 rand.rootPick).2) ≠ [] :=
    List.ne_nil_of_mem hpool
  have hperm : (generateLevel (init none) rand 6).validWords
      ~ selectWords rand.score (allValidFor (init none).clusters
          (signature (selectRoot (init none).dictionary 6 rand.rootPick).2)) :=
    List.perm_insertionSort _ _
  have hlen : (generateLevel (init none) rand 6).validWords.length ≠ 0 := by
    rw [hperm.length_eq]
    by_cases hc : (allValidFor (init none).clusters
        (signature (selectRoot (init none).dictionary 6 rand.rootPick).2)).length
        ≤ maxWords
    · rw [selectWords_small _ _ hc]
      intro h0
      exact hpoolne (List.length_eq_zero.mp h0)
    · rw [(selectWords_large _ _ (Nat.not_le.mp hc)).1]
      exact by decide
  intro h0
  rw [h0] at hlen
  simp at hlen

/-- C7 witness: with pick 0 (in range of the nine 5-letter fallback words)
and constant scores, the fallback dictionary is non-empty and the level has
non-empty validWords. -/
theorem init_fallback_playable_witness :
    (init none).dictionary ≠ []
    ∧ (generateLevel (init none) ⟨0, fun _ => 0, fun _ => 0⟩ 6).validWords ≠ [] :=
  init_fallback_playable ⟨0, fun _ => 0, fun _ => 0⟩ (by decide)

/-! ### C9: display letters versus root letters -/

/-- C9 counterexample: on the fallback dictionary with pick 0 the root is
"trust"; `rootLetters` is the lowercase signature "rsttu" while
`displayLetters` is an uppercase arrangement ['R','U','S','T','T'], so the
two do NOT have the same character multiset (the claim fails on case). -/
theorem displayLetters_case_mismatch :
    (generateLevel (init none) ⟨0, fun _ => 0, fun _ => 0⟩ 6).rootLetters = "rsttu"
    ∧ (generateLevel (init none) ⟨0, fun _ => 0, fun _ => 0⟩ 6).displayLetters
        = ['R', 'U', 'S', 'T', 'T']
    ∧ ¬ ((generateLevel (init none) ⟨0, fun _ => 0, fun _ => 0⟩ 6).displayLetters
        ~ (generateLevel (init none) ⟨0, fun _ => 0, fun _ => 0⟩ 6).rootLetters.data) := by
  decide

/-- C9 (amended): for every level returned by `generateLevel`,
`displayLetters` is a permutation of the UPPERCASED characters of
`rootLetters` — the multiset equality holds only after case folding,
because the code uppercases the root for display while `rootLetters` keeps
the lowercase signature — and `displayLetters` has exactly the root word's
length. -/
theorem displayLetters_perm_upper (st : EngineState) (rand : Rand) (t : Nat) :
    ((generateLevel st rand t).displayLetters
      ~ (generateLevel st rand t).rootLetters.data.map Char.toUpper)
    ∧ (generateLevel st rand t).displayLetters.length
        = (selectRoot st.dictionary t rand.rootPick).2.length := by
  have hroot : (generateLevel st rand t).rootLetters
      = signature (selectRoot st.dictionary t rand.rootPick).2 := rfl
  have hdisp : (generateLevel st rand t).displayLetters
      = displayShuffle rand.shuf (selectRoot st.dictionary t rand.rootPick).2 := rfl
  have hsig : (signature (selectRoot st.dictionary t rand.rootPick).2).data
      ~ (selectRoot st.dictionary t rand.rootPick).2.data :=
    List.perm_insertionSort _ _
  have h1 : (generateLevel st rand t).displayLetters
      ~ (selectRoot st.dictionary t rand.rootPick).2.data.map Char.toUpper := by
    rw [hdisp]; exact displayShuffle_perm _ _
  constructor
  · rw [hroot]
    exact h1.trans (hsig.map Char.toUpper).symm
  · rw [h1.length_eq, List.length_map]
    rfl

/-- C9 witness: at the fallback state with pick 0, `displayLetters`
['R','U','S','T','T'] is a permutation of the uppercased signature
characters "RSTTU", and its length equals the length of root "trust". -/
theorem displayLetters_perm_upper_witness :
    ((generateLevel (init none) ⟨0, fun _ => 0, fun _ => 0⟩ 6).displayLetters
      ~ (generateLevel (init none) ⟨0, fun _ => 0, fun _ => 0⟩ 6).rootLetters.data.map
          Char.toUpper)
    ∧ (generateLevel (init none) ⟨0, fun _ => 0, fun _ => 0⟩ 6).displayLetters.length
        = (selectRoot (init none).dictionary 6 0).2.length :=
  displayLetters_perm_upper (init none) ⟨0, fun _ => 0, fun _ => 0⟩ 6

/-! ### C10: totality and the doubly-empty dictionary -/

/-- C10: `generateLevel` is a total function of the engine state, the
random draws and the target length; `foundWords` always starts empty; and
on an engine whose dictionary is entirely empty (so both the target-length
filter and the length-5 retry are empty) the root is the fixed default
"water" and the level is well-formed with empty `validWords`. -/
theorem generateLevel_total_empty (st : EngineState) (rand : Rand) (t : Nat) :
    (generateLevel st rand t).foundWords = []
    ∧ (selectRoot ([] : List String) t rand.rootPick).2 = "water"
    ∧ (generateLevel ⟨[], buildClusters []⟩ rand t).rootLetters = signature "water"
    ∧ (generateLevel ⟨[], buildClusters []⟩ rand t).validWords = []
    ∧ ((generateLevel ⟨[], buildClusters []⟩ rand t).displayLetters ~ "WATER".data) := by
  refine ⟨rfl, rfl, rfl, rfl, ?_⟩
  have h1 : (generateLevel ⟨[], buildClusters []⟩ rand t).displayLetters
      ~ ("water" : String).data.map Char.toUpper := displayShuffle_perm _ _
  have h2 : ("water" : String).data.map Char.toUpper = ("WATER" : String).data := by
    decide
  rw [h2] at h1
  exact h1

/-- C10 witness: at a concrete draw, the empty-dictionary level has root
signature "aertw", no valid words and empty found words. -/
theorem generateLevel_total_empty_witness :
    (generateLevel ⟨[], buildClusters []⟩ ⟨0, fun _ => 0, fun _ => 0⟩ 3).foundWords = []
    ∧ (selectRoot ([] : List String) 3 0).2 = "water"
    ∧ (generateLevel ⟨[], buildClusters []⟩ ⟨0, fun _ => 0, fun _ => 0⟩ 3).rootLetters
        = signature "water"
    ∧ (generateLevel ⟨[], buildClusters []⟩ ⟨0, fun _ => 0, fun _ => 0⟩ 3).validWords = []
    ∧ ((generateLevel ⟨[], buildClusters []⟩ ⟨0, fun _ => 0, fun _ => 0⟩ 3).displayLetters
        ~ "WATER".data) :=
  generateLevel_total_empty ⟨[], buildClusters []⟩ ⟨0, fun _ => 0, fun _ => 0⟩ 3

end WordEngine
